import Mathlib

/-!
Verification of the rod package (rod.go): a convenience layer over a
transactional nested-bucket store. Locations are dot-delimited strings
naming a chain of nested buckets; Put creates buckets along the chain,
Get resolves them read-only.

The store is modelled as a tree of buckets: each bucket holds an
association list of key/value pairs and an association list of named
sub-buckets. The transaction root is an association list of top-level
buckets. Write-path functions take the store and return the updated
store together with the Go error value; read-path functions thread the
store through unchanged, mirroring the fact that the Go code only calls
the read-only primitives of the underlying store on that path.

JSON marshalling and unmarshalling are external collaborators and are
passed in as function parameters: encode mirrors json.Marshal
(bytes or error), decode mirrors json.Unmarshal into a target value
(new target value plus optional error).
-/

namespace Rod

/-- The error values declared at the top of rod.go, plus a constructor for
errors surfaced unchanged from the store or the serializer. -/
inductive Err where
  | locationMustHaveAtLeastOneBucket
  | invalidLocationBucket
  | keyNotProvided
  | other (msg : String)
deriving DecidableEq

/-- Values are raw byte sequences. -/
abbrev Bytes := List Nat

/-- A bolt bucket: key/value pairs plus named nested sub-buckets. -/
inductive Bucket where
  | mk (kvs : List (String × Bytes)) (subs : List (String × Bucket)) : Bucket

/-- Association-list lookup by name. -/
def assocGet {β : Type} : List (String × β) → String → Option β
  | [], _ => none
  | (n, x) :: rest, name => if n = name then some x else assocGet rest name

/-- Association-list update by name, appending when absent. -/
def assocSet {β : Type} : List (String × β) → String → β → List (String × β)
  | [], name, x => [(name, x)]
  | (n, y) :: rest, name, x =>
    if n = name then (n, x) :: rest else (n, y) :: assocSet rest name x

def Bucket.kvs : Bucket → List (String × Bytes)
  | .mk kvs _ => kvs

def Bucket.subs : Bucket → List (String × Bucket)
  | .mk _ subs => subs

/-- A freshly created bucket, as CreateBucketIfNotExists makes one. -/
def Bucket.empty : Bucket := .mk [] []

/-- b.Bucket(name): read-only sub-bucket lookup, nil on miss. -/
def Bucket.lookupSub (b : Bucket) (name : String) : Option Bucket :=
  assocGet b.subs name

/-- Functional write-back of a sub-bucket under a name. -/
def Bucket.setSub (b : Bucket) (name : String) (sub : Bucket) : Bucket :=
  .mk b.kvs (assocSet b.subs name sub)

/-- b.Put(key, value): store the value under the key. -/
def Bucket.putKV (b : Bucket) (key : String) (v : Bytes) : Bucket :=
  .mk (assocSet b.kvs key v) b.subs

/-- b.Get(key): nil when the key is absent. -/
def Bucket.getKV (b : Bucket) (key : String) : Option Bytes :=
  assocGet b.kvs key

/-- The transaction root: the top-level buckets of the store. -/
abbrev Store := List (String × Bucket)

/-- strings.Split(location, ".") on the character list of the location. -/
def splitDotChars : List Char → List (List Char)
  | [] => [[]]
  | c :: rest =>
    let r := splitDotChars rest
    if c = '.' then [] :: r
    else
      match r with
      | [] => [[c]]
      | s :: ss => (c :: s) :: ss

/-- strings.Split(location, "."): the dot-delimited segments of a location. -/
def splitDot (s : String) : List String :=
  (splitDotChars s.data).map fun cs => String.mk cs

/-- The loop body of Put over buckets[1:]: validate each remaining segment,
CreateBucketIfNotExists for it, and finally b.Put(key, value) in the
terminal bucket. Returns the updated bucket and the Go error value; on an
empty segment the buckets already created are kept (the Go code returns
with the transaction already mutated). -/
def putSegs (b : Bucket) (segs : List String) (key : String) (value : Bytes) :
    Bucket × Option Err :=
  match segs with
  | [] => (b.putKV key value, none)
  | name :: rest =>
    if name = "" then (b, some .invalidLocationBucket)
    else
      let sub := (b.lookupSub name).getD Bucket.empty
      let r := putSegs sub rest key value
      (b.setSub name r.1, r.2)

/-- rod.Put: validate location, then key, split the location, validate the
first segment, CreateBucketIfNotExists down the chain, then put the value
under the key in the terminal bucket. -/
def Put (s : Store) (location key : String) (value : Bytes) : Store × Option Err :=
  if location = "" then (s, some .locationMustHaveAtLeastOneBucket)
  else if key = "" then (s, some .keyNotProvided)
  else
    match splitDot location with
    | [] => (s, none)
    | b0 :: rest =>
      if b0 = "" then (s, some .invalidLocationBucket)
      else
        let top := (assocGet s b0).getD Bucket.empty
        let r := putSegs top rest key value
        (assocSet s b0 r.1, r.2)

/-- rod.PutJson: json.Marshal the value; on failure return that error
without calling Put, otherwise call Put with the serialized bytes. -/
def PutJson {α : Type} (encode : α → Except Err Bytes) (s : Store)
    (location key : String) (v : α) : Store × Option Err :=
  match encode v with
  | .error e => (s, some e)
  | .ok value => Put s location key value

/-- The loop body of GetBucket over buckets[1:]: validate each remaining
segment, then look the sub-bucket up read-only, returning nil without an
error as soon as one is missing. -/
def getSegs (b : Bucket) : List String → Except Err (Option Bucket)
  | [] => .ok (some b)
  | name :: rest =>
    if name = "" then .error .invalidLocationBucket
    else
      match b.lookupSub name with
      | none => .ok none
      | some sub => getSegs sub rest

/-- rod.GetBucket: validate the location and its first segment, then walk
the bucket chain read-only; a missing bucket anywhere yields (nil, nil).
The store is threaded through unchanged: only read-only primitives run. -/
def GetBucket (s : Store) (location : String) :
    Store × Except Err (Option Bucket) :=
  if location = "" then (s, .error .locationMustHaveAtLeastOneBucket)
  else
    match splitDot location with
    | [] => (s, .ok none)
    | b0 :: rest =>
      if b0 = "" then (s, .error .invalidLocationBucket)
      else
        match assocGet s b0 with
        | none => (s, .ok none)
        | some b => (s, getSegs b rest)

/-- rod.Get: resolve the bucket via GetBucket; propagate its error; on a
nil bucket return (nil, nil); only then check the key for emptiness, and
finally b.Get(key). -/
def Get (s : Store) (location key : String) :
    Store × Except Err (Option Bytes) :=
  let r := GetBucket s location
  match r.2 with
  | .error e => (r.1, .error e)
  | .ok none => (r.1, .ok none)
  | .ok (some b) =>
    if key = "" then (r.1, .error .keyNotProvided)
    else (r.1, .ok (b.getKV key))

/-- rod.GetJson: call Get; propagate its error; on a nil raw value return
nil leaving the target untouched; otherwise json.Unmarshal the raw bytes
into the target, surfacing the decode error unchanged. -/
def GetJson {α : Type} (decode : Bytes → α → α × Option Err) (s : Store)
    (location key : String) (v : α) : Store × α × Option Err :=
  let r := Get s location key
  match r.2 with
  | .error e => (r.1, v, some e)
  | .ok none => (r.1, v, none)
  | .ok (some raw) =>
    let d := decode raw v
    (r.1, d.1, d.2)

/-- The segments of a list preceding its first empty segment. -/
def takeNonEmpty : List String → List String
  | [] => []
  | n :: rest => if n = "" then [] else n :: takeNonEmpty rest

/-- Read-only resolution of a bucket chain inside a bucket. -/
def resolveBucketChain (b : Bucket) : List String → Option Bucket
  | [] => some b
  | n :: rest =>
    match b.lookupSub n with
    | none => none
    | some sub => resolveBucketChain sub rest

/-- Read-only resolution of a bucket chain from the transaction root: the
container chain fully exists exactly when this returns a bucket. -/
def resolveChain (s : Store) : List String → Option Bucket
  | [] => none
  | n :: rest =>
    match assocGet s n with
    | none => none
    | some b => resolveBucketChain b rest

/-- CreateBucketIfNotExists along a chain of segments inside a bucket. -/
def createChainB (b : Bucket) : List String → Bucket
  | [] => b
  | n :: rest => b.setSub n (createChainB ((b.lookupSub n).getD Bucket.empty) rest)

/-- CreateBucketIfNotExists along a chain of segments from the root. -/
def createChain (s : Store) : List String → Store
  | [] => s
  | n :: rest => assocSet s n (createChainB ((assocGet s n).getD Bucket.empty) rest)

/-- Looking up the name just set yields the value just set. -/
theorem assocGet_assocSet {β : Type} (l : List (String × β)) (name : String) (x : β) :
    assocGet (assocSet l name x) name = some x := by
  induction l with
  | nil => simp [assocGet, assocSet]
  | cons p rest ih =>
    obtain ⟨n, y⟩ := p
    by_cases h : n = name
    · subst h
      simp [assocGet, assocSet]
    · simp [assocGet, assocSet, h, ih]

/-- splitDotChars never yields the empty list of segments. -/
theorem splitDotChars_ne_nil (l : List Char) : splitDotChars l ≠ [] := by
  induction l with
  | nil => simp [splitDotChars]
  | cons c rest ih =>
    simp only [splitDotChars]
    by_cases h : c = '.'
    · simp [h]
    · simp only [h, if_false]
      cases hr : splitDotChars rest with
      | nil => simp
      | cons s ss => simp

/-- splitDot never yields the empty list of segments. -/
theorem splitDot_ne_nil (s : String) : splitDot s ≠ [] := by
  unfold splitDot
  intro h
  exact splitDotChars_ne_nil s.data (List.map_eq_nil_iff.mp h)

/-- Looking up the sub-bucket just written back yields it. -/
theorem Bucket.lookupSub_setSub (b : Bucket) (n : String) (x : Bucket) :
    (b.setSub n x).lookupSub n = some x := by
  cases b with
  | mk kvs subs =>
    simp [Bucket.lookupSub, Bucket.setSub, Bucket.subs, assocGet_assocSet]

/-- On a chain of non-empty segments, the put loop succeeds and the get
loop on the resulting bucket reaches a terminal bucket holding the value
under the key. -/
theorem putSegs_roundtrip (segs : List String) (b : Bucket) (key : String) (v : Bytes)
    (hsegs : ∀ x ∈ segs, x ≠ "") :
    (putSegs b segs key v).2 = none ∧
    ∃ t, getSegs (putSegs b segs key v).1 segs = .ok (some t) ∧ t.getKV key = some v := by
  induction segs generalizing b with
  | nil =>
    refine ⟨rfl, b.putKV key v, rfl, ?_⟩
    simp [Bucket.putKV, Bucket.getKV, Bucket.kvs, assocGet_assocSet]
  | cons name rest ih =>
    have hname : name ≠ "" := hsegs name (by simp)
    have hrest : ∀ x ∈ rest, x ≠ "" := fun x hx => hsegs x (by simp [hx])
    obtain ⟨h2, t, hget, hkv⟩ := ih ((b.lookupSub name).getD Bucket.empty) hrest
    have hput : putSegs b (name :: rest) key v
        = (b.setSub name (putSegs ((b.lookupSub name).getD Bucket.empty) rest key v).1,
           (putSegs ((b.lookupSub name).getD Bucket.empty) rest key v).2) := by
      simp [putSegs, hname]
    refine ⟨by rw [hput]; exact h2, t, ?_, hkv⟩
    rw [hput]
    simp [getSegs, hname, Bucket.lookupSub_setSub, hget]

/-- On a chain of non-empty segments that does not fully resolve, the get
loop returns nil without an error. -/
theorem getSegs_of_resolve_none (segs : List String) (b : Bucket)
    (hsegs : ∀ x ∈ segs, x ≠ "") (h : resolveBucketChain b segs = none) :
    getSegs b segs = .ok none := by
  induction segs generalizing b with
  | nil => simp [resolveBucketChain] at h
  | cons name rest ih =>
    have hname : name ≠ "" := hsegs name (by simp)
    have hrest : ∀ x ∈ rest, x ≠ "" := fun x hx => hsegs x (by simp [hx])
    cases hl : b.lookupSub name with
    | none => simp [getSegs, hname, hl]
    | some sub =>
      simp only [resolveBucketChain, hl] at h
      simp [getSegs, hname, hl, ih sub hrest h]

/-- When a chain contains an empty segment, the get loop either reports the
invalid segment or misses a bucket first; it never reaches a terminal. -/
theorem getSegs_of_empty_mem (segs : List String) (b : Bucket) (h : "" ∈ segs) :
    getSegs b segs = .error .invalidLocationBucket ∨ getSegs b segs = .ok none := by
  induction segs generalizing b with
  | nil => simp at h
  | cons name rest ih =>
    by_cases hname : name = ""
    · left
      simp [getSegs, hname]
    · have hr : "" ∈ rest := by
        rcases List.mem_cons.mp h with h1 | h1
        · exact absurd h1.symm hname
        · exact h1
      cases hl : b.lookupSub name with
      | none =>
        right
        simp [getSegs, hname, hl]
      | some sub =>
        have := ih sub hr
        simpa [getSegs, hname, hl] using this

/-- When a chain contains an empty segment, the put loop reports the
invalid segment, having created every bucket up to the first empty
segment. -/
theorem putSegs_of_empty_mem (segs : List String) (b : Bucket) (key : String) (v : Bytes)
    (h : "" ∈ segs) :
    putSegs b segs key v =
      (createChainB b (takeNonEmpty segs), some .invalidLocationBucket) := by
  induction segs generalizing b with
  | nil => simp at h
  | cons name rest ih =>
    by_cases hname : name = ""
    · simp [putSegs, hname, takeNonEmpty, createChainB]
    · have hr : "" ∈ rest := by
        rcases List.mem_cons.mp h with h1 | h1
        · exact absurd h1.symm hname
        · exact h1
      simp [putSegs, hname, takeNonEmpty, createChainB, ih _ hr]

/-- After creating a chain inside a bucket, the chain resolves. -/
theorem resolveBucketChain_createChainB (segs : List String) (b : Bucket) :
    (resolveBucketChain (createChainB b segs) segs).isSome = true := by
  induction segs generalizing b with
  | nil => simp [createChainB, resolveBucketChain]
  | cons n rest ih =>
    have hl : (b.setSub n (createChainB ((b.lookupSub n).getD Bucket.empty) rest)).lookupSub n
        = some (createChainB ((b.lookupSub n).getD Bucket.empty) rest) := by
      simp [Bucket.lookupSub, Bucket.setSub, Bucket.subs, assocGet_assocSet]
    simp only [createChainB, resolveBucketChain, hl]
    exact ih _

/-- After creating a non-empty chain from the root, the chain resolves. -/
theorem resolveChain_createChain (s : Store) (n : String) (rest : List String) :
    (resolveChain (createChain s (n :: rest)) (n :: rest)).isSome = true := by
  simp only [createChain, resolveChain, assocGet_assocSet]
  exact resolveBucketChain_createChainB rest _

/-- GetBucket returns the store unchanged. -/
theorem GetBucket_fst (s : Store) (location : String) : (GetBucket s location).1 = s := by
  unfold GetBucket
  repeat' split
  all_goals rfl

/-- Get returns the store unchanged. -/
theorem Get_fst (s : Store) (location key : String) : (Get s location key).1 = s := by
  unfold Get
  cases h : (GetBucket s location).2 with
  | error e => simp [h, GetBucket_fst]
  | ok ob =>
    cases ob with
    | none => simp [h, GetBucket_fst]
    | some b => by_cases hk : key = "" <;> simp [h, hk, GetBucket_fst]

/-- GetJson returns the store unchanged. -/
theorem GetJson_fst {α : Type} (decode : Bytes → α → α × Option Err) (s : Store)
    (location key : String) (v : α) : (GetJson decode s location key v).1 = s := by
  unfold GetJson
  cases h : (Get s location key).2 with
  | error e => simp [h, Get_fst]
  | ok ob =>
    cases ob with
    | none => simp [h, Get_fst]
    | some raw => simp [h, Get_fst]

/-- Claim C1: for every store state, every non-empty dot-delimited location
with no empty segments, every non-empty key and every byte value, Put
succeeds, and a subsequent Get on the resulting store with the same
location and key returns exactly the bytes written. -/
theorem put_get_roundtrip (s : Store) (location key : String) (value : Bytes)
    (hloc : location ≠ "") (hsegs : ∀ x ∈ splitDot location, x ≠ "") (hkey : key ≠ "") :
    (Put s location key value).2 = none ∧
    (Get (Put s location key value).1 location key).2 = .ok (some value) := by
  cases hsp : splitDot location with
  | nil => exact absurd hsp (splitDot_ne_nil location)
  | cons b0 rest =>
    have hb0 : b0 ≠ "" := hsegs b0 (by rw [hsp]; simp)
    have hrest : ∀ x ∈ rest, x ≠ "" := fun x hx => hsegs x (by rw [hsp]; simp [hx])
    obtain ⟨h2, t, hget, hkv⟩ :=
      putSegs_roundtrip rest ((assocGet s b0).getD Bucket.empty) key value hrest
    have hput : Put s location key value
        = (assocSet s b0 (putSegs ((assocGet s b0).getD Bucket.empty) rest key value).1,
           (putSegs ((assocGet s b0).getD Bucket.empty) rest key value).2) := by
      simp [Put, hloc, hkey, hsp, hb0]
    constructor
    · rw [hput]
      exact h2
    · rw [hput]
      have hgb : (GetBucket
            (assocSet s b0 (putSegs ((assocGet s b0).getD Bucket.empty) rest key value).1)
            location).2
          = getSegs (putSegs ((assocGet s b0).getD Bucket.empty) rest key value).1 rest := by
        simp [GetBucket, hloc, hsp, hb0, assocGet_assocSet]
      simp [Get, hgb, hget, hkey, hkv]

/-- Claim C1 witness at a concrete input. -/
theorem put_get_roundtrip_witness :
    (Put ([] : Store) "a.b" "k" [1, 2]).2 = none ∧
    (Get (Put ([] : Store) "a.b" "k" [1, 2]).1 "a.b" "k").2 = .ok (some [1, 2]) :=
  put_get_roundtrip [] "a.b" "k" [1, 2] (by decide) (by decide) (by decide)

/-- Claim C2: for every well-formed location whose container chain does
not fully resolve in the store, and every key, both GetBucket and Get
return the soft miss (nil, no error), never an error. -/
theorem get_soft_miss_no_error (s : Store) (location key : String)
    (hloc : location ≠ "") (hsegs : ∀ x ∈ splitDot location, x ≠ "")
    (hmiss : resolveChain s (splitDot location) = none) :
    (GetBucket s location).2 = .ok none ∧ (Get s location key).2 = .ok none := by
  cases hsp : splitDot location with
  | nil => exact absurd hsp (splitDot_ne_nil location)
  | cons b0 rest =>
    have hb0 : b0 ≠ "" := hsegs b0 (by rw [hsp]; simp)
    have hrest : ∀ x ∈ rest, x ≠ "" := fun x hx => hsegs x (by rw [hsp]; simp [hx])
    rw [hsp] at hmiss
    have hgb : (GetBucket s location).2 = .ok none := by
      cases ha : assocGet s b0 with
      | none => simp [GetBucket, hloc, hsp, hb0, ha]
      | some b =>
        simp only [resolveChain, ha] at hmiss
        simp [GetBucket, hloc, hsp, hb0, ha, getSegs_of_resolve_none rest b hrest hmiss]
    exact ⟨hgb, by simp [Get, hgb]⟩

/-- Claim C2 witness at a concrete input. -/
theorem get_soft_miss_no_error_witness :
    (GetBucket ([] : Store) "a.b").2 = .ok none ∧
    (Get ([] : Store) "a.b" "k").2 = .ok none :=
  get_soft_miss_no_error [] "a.b" "k" (by decide) (by decide) (by rfl)

/-- Claim C3 counterexample: with an empty key, Put on a location holding
an empty segment reports the empty key, not the invalid segment; and on
the empty store the read path soft-misses on that location instead of
reporting the invalid segment. -/
theorem invalid_segment_claim_counterexample :
    (Put ([] : Store) "a..b" "" [0]).2 = some Err.keyNotProvided ∧
    some Err.keyNotProvided ≠ some Err.invalidLocationBucket ∧
    (GetBucket ([] : Store) "a..b").2 = .ok none ∧
    (Get ([] : Store) "a..b" "k").2 = .ok none :=
  ⟨rfl, by decide, rfl, rfl⟩

/-- Claim C3 amended: for every store state and every non-empty location
containing an empty segment, Put with a non-empty key fails with the
invalid-segment error; the read path never yields a container: it fails
with the invalid-segment error or returns the soft miss, and it always
fails with the invalid-segment error when the first segment is empty. -/
theorem invalid_segment_paths_amended (s : Store) (location key : String) (value : Bytes)
    (hloc : location ≠ "") (hmem : "" ∈ splitDot location) :
    (key ≠ "" → (Put s location key value).2 = some .invalidLocationBucket) ∧
    ((GetBucket s location).2 = .error .invalidLocationBucket ∨
      (GetBucket s location).2 = .ok none) ∧
    ((Get s location key).2 = .error .invalidLocationBucket ∨
      (Get s location key).2 = .ok none) ∧
    ((splitDot location).head? = some "" →
      (GetBucket s location).2 = .error .invalidLocationBucket) := by
  cases hsp : splitDot location with
  | nil => exact absurd hsp (splitDot_ne_nil location)
  | cons b0 rest =>
    rw [hsp] at hmem
    have hput : key ≠ "" → (Put s location key value).2 = some .invalidLocationBucket := by
      intro hkey
      by_cases hb0 : b0 = ""
      · simp [Put, hloc, hkey, hsp, hb0]
      · have hr : "" ∈ rest := by
          rcases List.mem_cons.mp hmem with h1 | h1
          · exact absurd h1.symm hb0
          · exact h1
        simp [Put, hloc, hkey, hsp, hb0,
          putSegs_of_empty_mem rest ((assocGet s b0).getD Bucket.empty) key value hr]
    have hgb : (GetBucket s location).2 = .error .invalidLocationBucket ∨
        (GetBucket s location).2 = .ok none := by
      by_cases hb0 : b0 = ""
      · left
        simp [GetBucket, hloc, hsp, hb0]
      · have hr : "" ∈ rest := by
          rcases List.mem_cons.mp hmem with h1 | h1
          · exact absurd h1.symm hb0
          · exact h1
        cases ha : assocGet s b0 with
        | none =>
          right
          simp [GetBucket, hloc, hsp, hb0, ha]
        | some b =>
          have heq : (GetBucket s location).2 = getSegs b rest := by
            simp [GetBucket, hloc, hsp, hb0, ha]
          rw [heq]
          exact getSegs_of_empty_mem rest b hr
    refine ⟨hput, hgb, ?_, ?_⟩
    · rcases hgb with h | h
      · left
        simp [Get, h]
      · right
        simp [Get, h]
    · intro hh
      simp only [List.head?_cons, Option.some.injEq] at hh
      simp [GetBucket, hloc, hsp, hh]

/-- Claim C3 amended witness at concrete inputs. -/
theorem invalid_segment_paths_amended_witness :
    (Put ([] : Store) "a..b" "k" [0]).2 = some Err.invalidLocationBucket ∧
    ((GetBucket ([] : Store) "a..b").2 = .error Err.invalidLocationBucket ∨
      (GetBucket ([] : Store) "a..b").2 = .ok none) ∧
    (GetBucket ([] : Store) ".a").2 = .error Err.invalidLocationBucket := by
  have h1 := invalid_segment_paths_amended ([] : Store) "a..b" "k" [0] (by decide) (by decide)
  have h2 := invalid_segment_paths_amended ([] : Store) ".a" "k" [0] (by decide) (by decide)
  exact ⟨h1.1 (by decide), h1.2.1, h2.2.2.2 (by rfl)⟩

/-- Claim C4 counterexample: on the empty store, Get with location naming
an absent bucket and an empty key returns the soft miss, not the
empty-key error. -/
theorem get_empty_key_counterexample :
    (Get ([] : Store) "a" "").2 = .ok none ∧
    (Get ([] : Store) "a" "").2 ≠ .error Err.keyNotProvided := by
  constructor
  · rfl
  · rw [show (Get ([] : Store) "a" "").2 = .ok none from rfl]
    simp

/-- Claim C4 amended: Get with an empty key fails with the empty-key error
whenever bucket resolution yields an existing container; when resolution
soft-misses, Get returns (nil, no error) even with an empty key. -/
theorem get_empty_key_after_resolution (s : Store) (location : String) :
    (∀ b : Bucket, (GetBucket s location).2 = .ok (some b) →
      (Get s location "").2 = .error .keyNotProvided) ∧
    ((GetBucket s location).2 = .ok none → (Get s location "").2 = .ok none) := by
  constructor
  · intro b hb
    simp [Get, hb]
  · intro hb
    simp [Get, hb]

/-- Claim C4 amended witness at a concrete input. -/
theorem get_empty_key_after_resolution_witness :
    (Get [("a", Bucket.empty)] "a" "").2 = .error Err.keyNotProvided :=
  (get_empty_key_after_resolution [("a", Bucket.empty)] "a").1 Bucket.empty (by rfl)

/-- Claim C5: the read path never modifies the store: GetBucket, Get and
GetJson all return the store they were given. -/
theorem read_path_preserves_store (s : Store) (location key : String) :
    (GetBucket s location).1 = s ∧ (Get s location key).1 = s ∧
    ∀ (α : Type) (decode : Bytes → α → α × Option Err) (v : α),
      (GetJson decode s location key v).1 = s :=
  ⟨GetBucket_fst s location, Get_fst s location key,
   fun _ decode v => GetJson_fst decode s location key v⟩

/-- Claim C6: when serialization fails, PutJson surfaces that error
unchanged and leaves the store unmodified; when serialization succeeds,
PutJson behaves exactly as Put on the serialized bytes. -/
theorem putJson_encode_behavior {α : Type} (encode : α → Except Err Bytes) (s : Store)
    (location key : String) (v : α) :
    (∀ e, encode v = .error e → PutJson encode s location key v = (s, some e)) ∧
    (∀ b, encode v = .ok b → PutJson encode s location key v = Put s location key b) := by
  constructor
  · intro e he
    simp [PutJson, he]
  · intro b hb
    simp [PutJson, hb]

/-- Claim C6 witness at concrete inputs. -/
theorem putJson_encode_behavior_witness :
    PutJson (fun _ : Nat => Except.error (Err.other "boom")) ([] : Store) "a" "k" 0
      = ([], some (Err.other "boom")) ∧
    PutJson (fun _ : Nat => Except.ok [1, 2]) ([] : Store) "a" "k" 0 = Put [] "a" "k" [1, 2] :=
  ⟨(putJson_encode_behavior (fun _ : Nat => Except.error (Err.other "boom"))
      [] "a" "k" 0).1 (Err.other "boom") rfl,
   (putJson_encode_behavior (fun _ : Nat => Except.ok [1, 2]) [] "a" "k" 0).2 [1, 2] rfl⟩

/-- Claim C7: when Get soft-misses, GetJson returns no error and leaves
the output target unmodified; when Get returns bytes, GetJson feeds them
to the decoder, returning its output value and surfacing its error
unchanged. -/
theorem getJson_soft_miss_and_decode {α : Type} (decode : Bytes → α → α × Option Err)
    (s : Store) (location key : String) (v : α) :
    ((Get s location key).2 = .ok none → GetJson decode s location key v = (s, v, none)) ∧
    (∀ raw, (Get s location key).2 = .ok (some raw) →
      GetJson decode s location key v = (s, (decode raw v).1, (decode raw v).2)) := by
  constructor
  · intro h
    simp [GetJson, h, Get_fst]
  · intro raw h
    simp [GetJson, h, Get_fst]

/-- Claim C7 witness at concrete inputs. -/
theorem getJson_soft_miss_and_decode_witness :
    GetJson (fun _ (a : Nat) => (a + 1, none)) ([] : Store) "a" "k" 5 = ([], 5, none) ∧
    GetJson (fun (_ : Bytes) (a : Nat) => (a, none))
        [("a", Bucket.mk [("k", [9, 9])] [])] "a" "k" 7
      = ([("a", Bucket.mk [("k", [9, 9])] [])], 7, none) :=
  ⟨(getJson_soft_miss_and_decode (fun _ (a : Nat) => (a + 1, none)) [] "a" "k" 5).1 rfl,
   (getJson_soft_miss_and_decode (fun (_ : Bytes) (a : Nat) => (a, none))
      [("a", Bucket.mk [("k", [9, 9])] [])] "a" "k" 7).2 [9, 9] rfl⟩

/-- Claim C8: Put with an empty location fails with the empty-location
error for every store, key and value; Put with a non-empty location and
an empty key fails with the empty-key error, leaving the store unchanged
in both cases. -/
theorem put_empty_location_empty_key (s : Store) (location key : String) (value : Bytes) :
    Put s "" key value = (s, some .locationMustHaveAtLeastOneBucket) ∧
    (location ≠ "" → Put s location "" value = (s, some .keyNotProvided)) := by
  constructor
  · simp [Put]
  · intro h
    simp [Put, h]

/-- Claim C8 witness at concrete inputs. -/
theorem put_empty_location_empty_key_witness :
    Put ([] : Store) "" "k" [1] = ([], some Err.locationMustHaveAtLeastOneBucket) ∧
    Put ([] : Store) "a" "" [1] = ([], some Err.keyNotProvided) :=
  ⟨(put_empty_location_empty_key [] "a" "k" [1]).1,
   (put_empty_location_empty_key [] "a" "k" [1]).2 (by decide)⟩

/-- Claim C9: when the first segment of the location is non-empty but a
later segment is empty and the key is non-empty, Put returns the
invalid-segment error after creating exactly the buckets named by the
segments preceding the first empty one: that chain resolves afterwards,
and the store changes whenever the chain was not already present. -/
theorem put_partial_creation_on_invalid_segment (s : Store) (location key : String)
    (value : Bytes) (s0 : String) (rest : List String)
    (hsp : splitDot location = s0 :: rest) (hs0 : s0 ≠ "") (hmem : "" ∈ rest)
    (hkey : key ≠ "") :
    (Put s location key value).2 = some .invalidLocationBucket ∧
    (Put s location key value).1 = createChain s (s0 :: takeNonEmpty rest) ∧
    (resolveChain (Put s location key value).1 (s0 :: takeNonEmpty rest)).isSome = true ∧
    (resolveChain s (s0 :: takeNonEmpty rest) = none → (Put s location key value).1 ≠ s) := by
  have hloc : location ≠ "" := by
    intro h
    apply hs0
    rw [h, show splitDot "" = [""] from rfl] at hsp
    injection hsp with h1 h2
    exact h1.symm
  have hput : Put s location key value
      = (assocSet s s0 (putSegs ((assocGet s s0).getD Bucket.empty) rest key value).1,
         (putSegs ((assocGet s s0).getD Bucket.empty) rest key value).2) := by
    simp [Put, hloc, hkey, hsp, hs0]
  have hps := putSegs_of_empty_mem rest ((assocGet s s0).getD Bucket.empty) key value hmem
  have hstore : (Put s location key value).1 = createChain s (s0 :: takeNonEmpty rest) := by
    rw [hput, hps]
    simp [createChain]
  have herr : (Put s location key value).2 = some .invalidLocationBucket := by
    rw [hput, hps]
  have hres : (resolveChain (Put s location key value).1
      (s0 :: takeNonEmpty rest)).isSome = true := by
    rw [hstore]
    exact resolveChain_createChain s s0 (takeNonEmpty rest)
  refine ⟨herr, hstore, hres, ?_⟩
  intro hnone heq
  rw [heq, hnone] at hres
  simp at hres

/-- Claim C9 witness at a concrete input: on the empty store the failed
Put still created the bucket before the empty segment. -/
theorem put_partial_creation_on_invalid_segment_witness :
    (Put ([] : Store) "a..b" "k" [7]).2 = some Err.invalidLocationBucket ∧
    (Put ([] : Store) "a..b" "k" [7]).1 ≠ ([] : Store) := by
  have h := put_partial_creation_on_invalid_segment ([] : Store) "a..b" "k" [7]
    "a" ["", "b"] rfl (by decide) (by decide) (by decide)
  exact ⟨h.1, h.2.2.2 (by rfl)⟩

/-- Claim C10: Put validates in a fixed order before touching the store:
empty location, then empty key, then the first segment; each check
returns its own error with the store unchanged. -/
theorem put_validation_order (s : Store) (location key : String) (value : Bytes) :
    Put s "" "" value = (s, some .locationMustHaveAtLeastOneBucket) ∧
    (location ≠ "" → Put s location "" value = (s, some .keyNotProvided)) ∧
    (location ≠ "" → key ≠ "" → (splitDot location).head? = some "" →
      Put s location key value = (s, some .invalidLocationBucket)) := by
  refine ⟨by simp [Put], fun h => by simp [Put, h], ?_⟩
  intro hloc hkey hh
  cases hsp : splitDot location with
  | nil => exact absurd hsp (splitDot_ne_nil location)
  | cons b0 rest =>
    rw [hsp] at hh
    simp only [List.head?_cons, Option.some.injEq] at hh
    simp [Put, hloc, hkey, hsp, hh]

/-- Claim C10 witness at concrete inputs. -/
theorem put_validation_order_witness :
    Put ([] : Store) "" "" [1] = ([], some Err.locationMustHaveAtLeastOneBucket) ∧
    Put ([] : Store) "x" "" [1] = ([], some Err.keyNotProvided) ∧
    Put ([] : Store) ".a" "k" [1] = ([], some Err.invalidLocationBucket) :=
  ⟨(put_validation_order [] "x" "" [1]).1,
   (put_validation_order [] "x" "" [1]).2.1 (by decide),
   (put_validation_order [] ".a" "k" [1]).2.2 (by decide) (by decide) (by rfl)⟩

end Rod
